import Mathlib

/-!
Shallow embedding of `ident.go` from bpineau/gogetdoc.

The file models the three functions of the source — `findTypeSpec`,
`findVarSpec`, `formatNode` — and the lookup entry point `IdentDoc`,
over an explicit AST data model mirroring the `go/ast` nodes the code
touches.  Go runtime panics (failed type assertions `spec.(*ast.TypeSpec)`
and the nil-pointer dereference `specCp := *spec`) are modelled as `none`
in an outer `Option`; the external pretty printer `printer.Config.Fprint`
is an oracle parameter `print : Node → Except Unit String` (an `.error`
value models a formatting failure), and the package-level lookup
`PackageDoc`, whose code is not in the repository slice, is modelled
from the spec.
-/

set_option autoImplicit false

namespace Gogetdoc

/-- A `*ast.CommentGroup` field: `none` models a nil pointer, `some s`
models a group whose processed `Text()` is `s`. -/
abbrev CommentGroup := Option String

/-- Translation of `(*ast.CommentGroup).Text()`: returns the empty string on a nil
receiver, otherwise the processed comment text. -/
def commentText : CommentGroup → String
  | none => ""
  | some s => s

/-- An initializer expression: the code only distinguishes `*ast.BasicLit`
(with its literal source text `Value`) from every other expression. -/
inductive Expr where
  | basicLit (value : String)
  | otherExpr
  deriving DecidableEq, Repr

/-- An `*ast.TypeSpec`: one named type binding inside a `type` group. -/
structure TypeSpecData where
  name : String
  doc : CommentGroup
  deriving DecidableEq, Repr

/-- An `*ast.ValueSpec`: one binding of a `var`/`const` group, possibly
declaring several names, with an initializer value list. -/
structure ValueSpecData where
  names : List String
  values : List Expr
  doc : CommentGroup
  deriving DecidableEq, Repr

/-- An `ast.Spec` inside an `*ast.GenDecl`. -/
inductive Spec where
  | typeSpec (ts : TypeSpecData)
  | valueSpec (vs : ValueSpecData)
  deriving DecidableEq, Repr

/-- The `token.Token` kind carried by an `*ast.GenDecl`. -/
inductive Tok where
  | constTok
  | varTok
  | typeTok
  | importTok
  deriving DecidableEq, Repr

/-- An `*ast.FuncDecl`: doc comment, presence of a body, and an opaque
remainder (name, receiver and signature) that the renderer copies
verbatim. -/
structure FuncDeclData where
  doc : CommentGroup
  body : Option Unit
  nameSig : String
  deriving DecidableEq, Repr

/-- An `*ast.GenDecl`: token kind, group doc comment, the `Lparen` and
`Rparen` positions (`0` models `token.NoPos`, i.e. no surrounding
parentheses), and the ordered Spec list. -/
structure GenDeclData where
  tok : Tok
  doc : CommentGroup
  lparen : Nat
  rparen : Nat
  specs : List Spec
  deriving DecidableEq, Repr

/-- An `*ast.Field`: leading doc comment and trailing inline comment. -/
structure FieldData where
  doc : CommentGroup
  comment : CommentGroup
  deriving DecidableEq, Repr

/-- An `ast.Node` in the enclosing-ancestor chain, as far as the code
inspects it: the three kinds it switches on, and everything else. -/
inductive Node where
  | funcDecl (f : FuncDeclData)
  | genDecl (g : GenDeclData)
  | field (fl : FieldData)
  | other
  deriving DecidableEq, Repr

/-- The `types.Object` data the code reads: `Name()`, `Pkg().Path()`
(`none` models a nil `Pkg()`, as for built-ins), `String()`, and whether
the object is a `*types.PkgName` (carrying `Imported().Path()`). -/
inductive SymbolKind where
  | pkgName (importedPath : String)
  | ordinary
  deriving DecidableEq, Repr

structure Object where
  name : String
  pkg : Option String
  str : String
  kind : SymbolKind
  deriving DecidableEq, Repr

/-- The `Doc` output record (fields `Import`, `Name`, `Title`, `Doc`). -/
structure Doc where
  importPath : String
  name : String
  title : String
  docText : String
  deriving DecidableEq, Repr

/-- The two failure sites of `IdentDoc`; both print the same
"No documentation found for ..." message but arise at distinct places
(empty chain vs. no renderable node). -/
inductive LookupError where
  | notFound
  | noDocumentation
  deriving DecidableEq, Repr

/-- Translation of `findTypeSpec` from the source: scans `decl.Specs` in order, asserting
each to `*ast.TypeSpec` (a failed assertion is a panic, modelled as
`.error ()`), and returns the first whose name equals `symbol`; `ok none`
models the `return nil` fall-through. -/
def findTypeSpec : List Spec → String → Except Unit (Option TypeSpecData)
  | [], _ => .ok none
  | .typeSpec ts :: rest, symbol =>
      if ts.name = symbol then .ok (some ts) else findTypeSpec rest symbol
  | .valueSpec _ :: _, _ => .error ()

/-- Translation of `findVarSpec` from the source: scans `decl.Specs` in order, asserting
each to `*ast.ValueSpec`, and returns the first whose `Names` contain
`symbol`; `ok none` models the `return nil` fall-through. -/
def findVarSpec : List Spec → String → Except Unit (Option ValueSpecData)
  | [], _ => .ok none
  | .valueSpec vs :: rest, symbol =>
      if symbol ∈ vs.names then .ok (some vs) else findVarSpec rest symbol
  | .typeSpec _ :: _, _ => .error ()

/-- The `*ast.GenDecl` arm of `formatNode`: builds the fresh copy `cp`
with the group doc cleared, and — when the Spec list is nonempty —
retains only the Spec found for the target name (doc cleared, parens
zeroed), switching on the dynamic type of `Specs[0]`.  `none` models a
panic: either a failed type assertion inside the find helpers or the
nil-pointer dereference `specCp := *spec` when the helper returned nil. -/
def formatGenDeclCopy (g : GenDeclData) (symbol : String) : Option GenDeclData :=
  match g.specs with
  | [] => some { g with doc := none }
  | .typeSpec _ :: _ =>
      match findTypeSpec g.specs symbol with
      | .error _ => none
      | .ok none => none
      | .ok (some ts) =>
          some { g with doc := none,
                        specs := [.typeSpec { ts with doc := none }],
                        lparen := 0, rparen := 0 }
  | .valueSpec _ :: _ =>
      match findVarSpec g.specs symbol with
      | .error _ => none
      | .ok none => none
      | .ok (some vs) =>
          some { g with doc := none,
                        specs := [.valueSpec { vs with doc := none }],
                        lparen := 0, rparen := 0 }

/-- The fresh `*ast.FuncDecl` copy built by `formatNode`: doc and body
cleared, everything else kept. -/
def formatFuncDeclCopy (f : FuncDeclData) : FuncDeclData :=
  { f with doc := none, body := none }

/-- Translation of `formatNode` from the source.  `print` is the external
`go/printer` invocation on the node copy (`.error ()` models a non-nil
`Fprint` error); `symbol` is `obj.Name()` and `objString` is
`obj.String()`.  The overall `none` models a runtime panic inside the
`*ast.GenDecl` arm; every non-panicking path yields `some` string. -/
def formatNode (print : Node → Except Unit String)
    (n : Node) (symbol objString : String) : Option String :=
  match n with
  | .funcDecl f =>
      some (match print (.funcDecl (formatFuncDeclCopy f)) with
            | .ok s => s
            | .error _ => objString)
  | .genDecl g =>
      match formatGenDeclCopy g symbol with
      | none => none
      | some cp =>
          some (match print (.genDecl cp) with
                | .ok s => s
                | .error _ => objString)
  | .field _ => some objString
  | .other => some objString

/-- The inner loop of the constant scan: the first `*ast.BasicLit` among
`vs.Values` whose `Value` is nonempty. -/
def firstNonEmptyLit : List Expr → Option String
  | [] => none
  | .basicLit v :: rest =>
      if v ≠ "" then some v else firstNonEmptyLit rest
  | .otherExpr :: rest => firstNonEmptyLit rest

/-- The `SpecLoop` of `IdentDoc`: scans a const group's Specs in order,
asserting each to `*ast.ValueSpec` (`none` models the panic of a failed
assertion), and stops at the first non-empty basic-literal initializer
found in any Spec; yields `""` when no literal is found, mirroring the
zero value of `constValue`. -/
def constScan : List Spec → Option String
  | [] => some ""
  | .valueSpec vs :: rest =>
      match firstNonEmptyLit vs.values with
      | some v => some v
      | none => constScan rest
  | .typeSpec _ :: _ => none

/-- A node kind handled by the Title loop of `IdentDoc` (`*ast.FuncDecl`,
`*ast.GenDecl` or `*ast.Field`). -/
def isRenderable : Node → Bool
  | .funcDecl _ => true
  | .genDecl _ => true
  | .field _ => true
  | .other => false

/-- The Title loop of `IdentDoc`: the first node of the chain whose kind
the switch accepts (all other kinds `continue`). -/
def firstRenderable : List Node → Option Node
  | [] => none
  | n :: rest =>
      match n with
      | .funcDecl _ => some n
      | .genDecl _ => some n
      | .field _ => some n
      | .other => firstRenderable rest

/-- The second loop of `IdentDoc` (the DocText walk) over the ancestor
chain, carrying the partially built `Doc`.  `none` models the panic of
the `s.(*ast.ValueSpec)` assertion inside the const scan; a `some`
result is the `Doc` returned, with `docText` left unchanged (empty in
`IdentDoc`) when the walk exhausts the chain. -/
def docWalk (doc : Doc) : List Node → Option Doc
  | [] => some doc
  | n :: rest =>
      match n with
      | .funcDecl f => some { doc with docText := commentText f.doc }
      | .genDecl g =>
          match (if g.tok = .constTok then constScan g.specs else some "") with
          | none => none
          | some constValue =>
              match g.doc with
              | some d =>
                  let appended := if constValue ≠ "" then
                      "\nConstant Value: " ++ constValue
                    else ""
                  some { doc with docText := commentText (some d) ++ appended }
              | none => docWalk doc rest
      | .field fl =>
          match fl.doc with
          | some d => some { doc with docText := commentText (some d) }
          | none =>
              match fl.comment with
              | some c => some { doc with docText := commentText (some c) }
              | none => docWalk doc rest
      | .other => docWalk doc rest

/-- Modelled from the spec: `PackageDoc`, the package-level documentation
lookup, is not part of the repository slice (only its call site is).  Per
the spec, for the alias-redirect case it is keyed by the canonical
package path and the returned record has `ImportPath` equal to that path
and no declaration-level Title; its name and prose are supplied by the
external model, here the oracles `pkgNameOf` and `pkgDocOf`. -/
def PackageDoc (pkgNameOf pkgDocOf : String → String) (path : String) :
    Except LookupError Doc :=
  .ok { importPath := path, name := pkgNameOf path, title := "", docText := pkgDocOf path }

/-- The `pkgPath` computation of `IdentDoc`: the empty string when
`obj.Pkg()` is nil, otherwise `obj.Pkg().Path()`. -/
def pkgPathOf (obj : Object) : String :=
  match obj.pkg with
  | none => ""
  | some p => p

/-- Translation of `IdentDoc` from the source.  `print` is the `go/printer` oracle used
by `formatNode`; `packageDoc` is the `PackageDoc` call; `obj` is the
resolved `types.Object` and `chain` the `PathEnclosingInterval` result
at the object's definition position, innermost first.  The outer `none`
models a runtime panic. -/
def IdentDoc (print : Node → Except Unit String)
    (packageDoc : String → Except LookupError Doc)
    (obj : Object) (chain : List Node) : Option (Except LookupError Doc) :=
  let pkgPath := pkgPathOf obj
  match obj.kind with
  | .pkgName path => some (packageDoc path)
  | .ordinary =>
      match chain with
      | [] => some (.error .notFound)
      | _ :: _ =>
          match firstRenderable chain with
          | none => some (.error .noDocumentation)
          | some n =>
              match formatNode print n obj.name obj.str with
              | none => none
              | some title =>
                  let doc : Doc :=
                    { importPath := pkgPath, name := obj.name,
                      title := title, docText := "" }
                  match docWalk doc chain with
                  | none => none
                  | some d => some (.ok d)

/-! Claim-side characterizations and sample inputs.  The definitions
below are not translations of the source; they restate parts of the
spec in terms of standard list operations, to be proved equal to the
source translations above. -/

/-- Whether a Spec is a `*ast.TypeSpec`. -/
def isTypeSpecB : Spec → Bool
  | .typeSpec _ => true
  | .valueSpec _ => false

/-- Whether a Spec is a `*ast.ValueSpec`. -/
def isValueSpecB : Spec → Bool
  | .typeSpec _ => false
  | .valueSpec _ => true

/-- The Go parser invariant on a `*ast.GenDecl`: all Specs of one group
have the same dynamic type. -/
def HomogeneousSpecs (specs : List Spec) : Prop :=
  (∀ s ∈ specs, isTypeSpecB s = true) ∨ (∀ s ∈ specs, isValueSpecB s = true)

/-- Whether a Spec declares the given name (`Name` of a TypeSpec, any of
`Names` for a ValueSpec). -/
def specHasName (s : Spec) (symbol : String) : Bool :=
  match s with
  | .typeSpec ts => decide (ts.name = symbol)
  | .valueSpec vs => decide (symbol ∈ vs.names)

/-- A Spec with its doc comment cleared. -/
def clearSpecDoc : Spec → Spec
  | .typeSpec ts => .typeSpec { ts with doc := none }
  | .valueSpec vs => .valueSpec { vs with doc := none }

/-- The spec's reading of one initializer: a non-empty basic literal
yields its text, anything else yields nothing. -/
def litOf : Expr → Option String
  | .basicLit v => if v = "" then none else some v
  | .otherExpr => none

/-- The initializer value list of a Spec (empty for a TypeSpec). -/
def specValues : Spec → List Expr
  | .typeSpec _ => []
  | .valueSpec vs => vs.values

/-- The spec's characterization of the constant scan: the first
non-empty basic-literal initializer across all Specs in declaration
order, with values flattened Spec-major. -/
def firstConstLiteral (specs : List Spec) : Option String :=
  (specs.flatMap specValues).findSome? litOf

/-- Whether a per-kind rule of the DocText walk fires at a node:
a function always, a group only when it carries its own doc comment,
a field only when it has a leading doc or a trailing comment. -/
def ruleFires : Node → Bool
  | .funcDecl _ => true
  | .genDecl g => g.doc.isSome
  | .field fl => fl.doc.isSome || fl.comment.isSome
  | .other => false

/-- The partially built `Doc` of `IdentDoc` right after Title
rendering: import path and name from the object, the rendered title,
and the zero-valued (empty) `docText`. -/
def mkDoc (obj : Object) (title : String) : Doc :=
  { importPath := pkgPathOf obj, name := obj.name, title := title, docText := "" }

/-- A printer oracle that always succeeds. -/
def printSample : Node → Except Unit String := fun _ => .ok "PRINTED"

/-- A package-doc oracle built from the spec-modelled `PackageDoc`. -/
def pkgDocSample : String → Except LookupError Doc :=
  PackageDoc (fun p => p) (fun _ => "package docs")

/-- A sample partially built `Doc`. -/
def sampleDoc : Doc := { importPath := "p", name := "B", title := "T", docText := "" }

/-- The spec's running example `const ( A = 1; B = 2 )` with a
group-level doc comment and no per-Spec comments. -/
def sampleConstGroup : GenDeclData :=
  { tok := .constTok, doc := some "group doc\n", lparen := 5, rparen := 20,
    specs := [.valueSpec { names := ["A"], values := [.basicLit "1"], doc := none },
              .valueSpec { names := ["B"], values := [.basicLit "2"], doc := none }] }

/-- A `const C = 3` group with no doc comment. -/
def sampleBareConstGroup : GenDeclData :=
  { tok := .constTok, doc := none, lparen := 0, rparen := 0,
    specs := [.valueSpec { names := ["C"], values := [.basicLit "3"], doc := none }] }

/-- A `type ( T ... )` group declaring only `T`. -/
def sampleTypeGroup : GenDeclData :=
  { tok := .typeTok, doc := none, lparen := 1, rparen := 2,
    specs := [.typeSpec { name := "T", doc := none }] }

/-- A `var x ...` group with no doc comment. -/
def sampleVarGroup : GenDeclData :=
  { tok := .varTok, doc := none, lparen := 0, rparen := 0,
    specs := [.valueSpec { names := ["x"], values := [.otherExpr], doc := none }] }

/-- A sample ordinary (non-alias) object. -/
def sampleObj : Object :=
  { name := "x", pkg := some "p", str := "var p.x int", kind := .ordinary }

/-! Helper lemmas. -/

theorem firstNonEmptyLit_eq (l : List Expr) :
    firstNonEmptyLit l = l.findSome? litOf := by
  induction l with
  | nil => rfl
  | cons e rest ih =>
      cases e with
      | basicLit v =>
          by_cases hv : v = "" <;>
            simp [firstNonEmptyLit, litOf, hv, List.findSome?_cons, ih]
      | otherExpr => simp [firstNonEmptyLit, litOf, List.findSome?_cons, ih]

theorem litOf_ne_empty {e : Expr} {v : String} (h : litOf e = some v) : v ≠ "" := by
  cases e with
  | basicLit w =>
      by_cases hw : w = ""
      · simp [litOf, hw] at h
      · simp [litOf, hw] at h; subst h; exact hw
  | otherExpr => simp [litOf] at h

theorem findSome?_litOf_ne_empty {l : List Expr} {v : String}
    (h : l.findSome? litOf = some v) : v ≠ "" := by
  induction l with
  | nil => simp [List.findSome?] at h
  | cons e rest ih =>
      rw [List.findSome?_cons] at h
      cases he : litOf e with
      | some w => rw [he] at h; cases h; exact litOf_ne_empty he
      | none => rw [he] at h; exact ih h

theorem firstConstLiteral_ne_empty {specs : List Spec} {v : String}
    (h : firstConstLiteral specs = some v) : v ≠ "" :=
  findSome?_litOf_ne_empty h

theorem constScan_eq (specs : List Spec)
    (h : ∀ s ∈ specs, isValueSpecB s = true) :
    constScan specs = some ((firstConstLiteral specs).getD "") := by
  induction specs with
  | nil => rfl
  | cons s rest ih =>
      cases s with
      | typeSpec ts => simpa [isValueSpecB] using h _ (List.mem_cons_self _ _)
      | valueSpec vs =>
          have hrest := fun s hs => h s (List.mem_cons_of_mem _ hs)
          rw [show constScan (Spec.valueSpec vs :: rest) =
                (match firstNonEmptyLit vs.values with
                 | some v => some v
                 | none => constScan rest) from rfl]
          rw [firstNonEmptyLit_eq]
          unfold firstConstLiteral
          rw [List.flatMap_cons, List.findSome?_append]
          cases hv : vs.values.findSome? litOf with
          | some v => simp [specValues, hv]
          | none => simp [specValues, hv, ih hrest, firstConstLiteral]

theorem firstRenderable_eq (l : List Node) :
    firstRenderable l = l.find? isRenderable := by
  induction l with
  | nil => rfl
  | cons n rest ih =>
      cases n <;> simp [firstRenderable, isRenderable, List.find?_cons, ih]

theorem docWalk_preserves {d d₂ : Doc} {l : List Node}
    (h : docWalk d l = some d₂) :
    d₂.importPath = d.importPath ∧ d₂.name = d.name ∧ d₂.title = d.title := by
  induction l with
  | nil => simp [docWalk] at h; subst h; exact ⟨rfl, rfl, rfl⟩
  | cons n rest ih =>
      cases n with
      | funcDecl f =>
          simp [docWalk] at h
          subst h; exact ⟨rfl, rfl, rfl⟩
      | genDecl g =>
          rw [show docWalk d (Node.genDecl g :: rest) =
                (match (if g.tok = .constTok then constScan g.specs else some "") with
                 | none => none
                 | some constValue =>
                     match g.doc with
                     | some dd =>
                         let appended := if constValue ≠ "" then
                             "\nConstant Value: " ++ constValue
                           else ""
                         some { d with docText := commentText (some dd) ++ appended }
                     | none => docWalk d rest) from rfl] at h
          cases hcv : (if g.tok = .constTok then constScan g.specs else some "") with
          | none => rw [hcv] at h; cases h
          | some cv =>
              rw [hcv] at h
              cases hd : g.doc with
              | some dd => rw [hd] at h; simp at h; rw [← h]; exact ⟨rfl, rfl, rfl⟩
              | none => rw [hd] at h; exact ih h
      | field fl =>
          rw [show docWalk d (Node.field fl :: rest) =
                (match fl.doc with
                 | some dd => some { d with docText := commentText (some dd) }
                 | none =>
                     match fl.comment with
                     | some c => some { d with docText := commentText (some c) }
                     | none => docWalk d rest) from rfl] at h
          cases hd : fl.doc with
          | some dd => rw [hd] at h; simp at h; rw [← h]; exact ⟨rfl, rfl, rfl⟩
          | none =>
              rw [hd] at h
              cases hc : fl.comment with
              | some c => rw [hc] at h; simp at h; rw [← h]; exact ⟨rfl, rfl, rfl⟩
              | none => rw [hc] at h; exact ih h
      | other => exact ih h

theorem docWalk_nofire {d : Doc} {l : List Node}
    (hwf : ∀ g, Node.genDecl g ∈ l → g.tok = .constTok →
      ∀ s ∈ g.specs, isValueSpecB s = true)
    (h : ∀ n ∈ l, ruleFires n = false) :
    docWalk d l = some d := by
  induction l with
  | nil => rfl
  | cons n rest ih =>
      have hrest : docWalk d rest = some d :=
        ih (fun g hg => hwf g (List.mem_cons_of_mem _ hg))
           (fun m hm => h m (List.mem_cons_of_mem _ hm))
      cases n with
      | funcDecl f => simpa [ruleFires] using h _ (List.mem_cons_self _ _)
      | genDecl g =>
          have hdoc : g.doc = none := by
            have := h _ (List.mem_cons_self _ _)
            simpa [ruleFires, Option.isSome_iff_exists] using this
          by_cases htok : g.tok = Tok.constTok
          · have hvs := hwf g (List.mem_cons_self _ _) htok
            have hscan := constScan_eq g.specs hvs
            simp [docWalk, htok, hscan, hdoc, hrest]
          · simp [docWalk, htok, hdoc, hrest]
      | field fl =>
          have hh := h _ (List.mem_cons_self _ _)
          have hdoc : fl.doc = none := by
            cases hd : fl.doc <;> simp [ruleFires, hd] at hh ⊢
          have hcom : fl.comment = none := by
            cases hc : fl.comment <;> simp [ruleFires, hdoc, hc] at hh ⊢
          simp [docWalk, hdoc, hcom, hrest]
      | other => simpa [docWalk] using hrest

theorem find?_cons_true {α : Type} {p : α → Bool} {a : α} {l : List α}
    (h : p a = true) : (a :: l).find? p = some a := by
  simp [List.find?_cons, h]

theorem find?_cons_false {α : Type} {p : α → Bool} {a : α} {l : List α}
    (h : p a = false) : (a :: l).find? p = l.find? p := by
  simp [List.find?_cons, h]

theorem findTypeSpec_found {specs : List Spec} {symbol : String}
    (h : ∀ s ∈ specs, isTypeSpecB s = true)
    (hmem : ∃ s ∈ specs, specHasName s symbol = true) :
    ∃ ts, specs.find? (fun t => specHasName t symbol) = some (.typeSpec ts) ∧
      findTypeSpec specs symbol = .ok (some ts) := by
  induction specs with
  | nil => rcases hmem with ⟨s, hs, -⟩; cases hs
  | cons s rest ih =>
      cases s with
      | valueSpec vs => simpa [isTypeSpecB] using h _ (List.mem_cons_self _ _)
      | typeSpec ts =>
          by_cases hn : ts.name = symbol
          · exact ⟨ts, find?_cons_true (by simp [specHasName, hn]),
                   by simp [findTypeSpec, hn]⟩
          · have hrest : ∃ s ∈ rest, specHasName s symbol = true := by
              rcases hmem with ⟨s, hs, hsn⟩
              rcases List.mem_cons.mp hs with heq | hmem2
              · subst heq; simp [specHasName, hn] at hsn
              · exact ⟨s, hmem2, hsn⟩
            rcases ih (fun s hs => h s (List.mem_cons_of_mem _ hs)) hrest with
              ⟨ts2, hfind, hfts⟩
            refine ⟨ts2, ?_, by simp [findTypeSpec, hn, hfts]⟩
            rw [find?_cons_false (by simp [specHasName, hn])]
            exact hfind

theorem findVarSpec_found {specs : List Spec} {symbol : String}
    (h : ∀ s ∈ specs, isValueSpecB s = true)
    (hmem : ∃ s ∈ specs, specHasName s symbol = true) :
    ∃ vs, specs.find? (fun t => specHasName t symbol) = some (.valueSpec vs) ∧
      findVarSpec specs symbol = .ok (some vs) := by
  induction specs with
  | nil => rcases hmem with ⟨s, hs, -⟩; cases hs
  | cons s rest ih =>
      cases s with
      | typeSpec ts => simpa [isValueSpecB] using h _ (List.mem_cons_self _ _)
      | valueSpec vs =>
          by_cases hn : symbol ∈ vs.names
          · exact ⟨vs, find?_cons_true (by simp [specHasName, hn]),
                   by simp [findVarSpec, hn]⟩
          · have hrest : ∃ s ∈ rest, specHasName s symbol = true := by
              rcases hmem with ⟨s, hs, hsn⟩
              rcases List.mem_cons.mp hs with heq | hmem2
              · subst heq; simp [specHasName, hn] at hsn
              · exact ⟨s, hmem2, hsn⟩
            rcases ih (fun s hs => h s (List.mem_cons_of_mem _ hs)) hrest with
              ⟨vs2, hfind, hfvs⟩
            refine ⟨vs2, ?_, by simp [findVarSpec, hn, hfvs]⟩
            rw [find?_cons_false (by simp [specHasName, hn])]
            exact hfind

theorem findTypeSpec_none {specs : List Spec} {symbol : String}
    (h : ∀ s ∈ specs, isTypeSpecB s = true)
    (hmem : ∀ s ∈ specs, specHasName s symbol = false) :
    findTypeSpec specs symbol = .ok none := by
  induction specs with
  | nil => rfl
  | cons s rest ih =>
      cases s with
      | valueSpec vs => simpa [isTypeSpecB] using h _ (List.mem_cons_self _ _)
      | typeSpec ts =>
          have hn : ¬ ts.name = symbol := by
            have := hmem _ (List.mem_cons_self _ _)
            simpa [specHasName] using this
          simp [findTypeSpec, hn]
          exact ih (fun s hs => h s (List.mem_cons_of_mem _ hs))
                   (fun s hs => hmem s (List.mem_cons_of_mem _ hs))

theorem findVarSpec_none {specs : List Spec} {symbol : String}
    (h : ∀ s ∈ specs, isValueSpecB s = true)
    (hmem : ∀ s ∈ specs, specHasName s symbol = false) :
    findVarSpec specs symbol = .ok none := by
  induction specs with
  | nil => rfl
  | cons s rest ih =>
      cases s with
      | typeSpec ts => simpa [isValueSpecB] using h _ (List.mem_cons_self _ _)
      | valueSpec vs =>
          have hn : ¬ symbol ∈ vs.names := by
            have := hmem _ (List.mem_cons_self _ _)
            simpa [specHasName] using this
          simp [findVarSpec, hn]
          exact ih (fun s hs => h s (List.mem_cons_of_mem _ hs))
                   (fun s hs => hmem s (List.mem_cons_of_mem _ hs))

theorem formatGenDeclCopy_found {g : GenDeclData} {symbol : String}
    (hhomog : HomogeneousSpecs g.specs)
    (hmem : ∃ s ∈ g.specs, specHasName s symbol = true) :
    ∃ s, g.specs.find? (fun t => specHasName t symbol) = some s ∧
      formatGenDeclCopy g symbol =
        some { tok := g.tok, doc := none, lparen := 0, rparen := 0,
               specs := [clearSpecDoc s] } := by
  obtain ⟨tok, doc, lp, rp, specs⟩ := g
  cases specs with
  | nil => rcases hmem with ⟨s, hs, -⟩; cases hs
  | cons s0 rest =>
      cases hhomog with
      | inl hty =>
          have hs0 : isTypeSpecB s0 = true := hty _ (List.mem_cons_self _ _)
          cases s0 with
          | valueSpec vs => simp [isTypeSpecB] at hs0
          | typeSpec ts0 =>
              rcases findTypeSpec_found hty hmem with ⟨ts, hfind, hfts⟩
              exact ⟨.typeSpec ts, hfind, by simp [formatGenDeclCopy, hfts, clearSpecDoc]⟩
      | inr hval =>
          have hs0 : isValueSpecB s0 = true := hval _ (List.mem_cons_self _ _)
          cases s0 with
          | typeSpec ts => simp [isValueSpecB] at hs0
          | valueSpec vs0 =>
              rcases findVarSpec_found hval hmem with ⟨vs, hfind, hfvs⟩
              exact ⟨.valueSpec vs, hfind, by simp [formatGenDeclCopy, hfvs, clearSpecDoc]⟩

theorem formatGenDeclCopy_none {g : GenDeclData} {symbol : String}
    (hhomog : HomogeneousSpecs g.specs) (hne : g.specs ≠ [])
    (hmem : ∀ s ∈ g.specs, specHasName s symbol = false) :
    formatGenDeclCopy g symbol = none := by
  obtain ⟨tok, doc, lp, rp, specs⟩ := g
  cases specs with
  | nil => exact absurd rfl hne
  | cons s0 rest =>
      cases hhomog with
      | inl hty =>
          have hs0 : isTypeSpecB s0 = true := hty _ (List.mem_cons_self _ _)
          cases s0 with
          | valueSpec vs => simp [isTypeSpecB] at hs0
          | typeSpec ts0 =>
              have := findTypeSpec_none hty hmem
              simp [formatGenDeclCopy, this]
      | inr hval =>
          have hs0 : isValueSpecB s0 = true := hval _ (List.mem_cons_self _ _)
          cases s0 with
          | typeSpec ts => simp [isValueSpecB] at hs0
          | valueSpec vs0 =>
              have := findVarSpec_none hval hmem
              simp [formatGenDeclCopy, this]

theorem formatNode_genDecl_some {g : GenDeclData} {symbol : String}
    {cp : GenDeclData} (hcp : formatGenDeclCopy g symbol = some cp)
    (print : Node → Except Unit String) (objString : String) :
    formatNode print (Node.genDecl g) symbol objString =
      some (match print (Node.genDecl cp) with
            | .ok s => s
            | .error _ => objString) := by
  simp [formatNode, hcp]

theorem IdentDoc_ordinary_nil (print : Node → Except Unit String)
    (packageDoc : String → Except LookupError Doc) (obj : Object)
    (hord : obj.kind = SymbolKind.ordinary) :
    IdentDoc print packageDoc obj [] = some (.error .notFound) := by
  obtain ⟨nm, pk, st, kd⟩ := obj
  cases kd with
  | ordinary => rfl
  | pkgName p => exact SymbolKind.noConfusion hord

theorem IdentDoc_ordinary_cons (print : Node → Except Unit String)
    (packageDoc : String → Except LookupError Doc) (obj : Object)
    (c0 : Node) (crest : List Node)
    (hord : obj.kind = SymbolKind.ordinary) :
    IdentDoc print packageDoc obj (c0 :: crest) =
      (match firstRenderable (c0 :: crest) with
       | none => some (.error .noDocumentation)
       | some n =>
           match formatNode print n obj.name obj.str with
           | none => none
           | some title =>
               match docWalk (mkDoc obj title) (c0 :: crest) with
               | none => none
               | some d => some (.ok d)) := by
  obtain ⟨nm, pk, st, kd⟩ := obj
  cases kd with
  | ordinary => rfl
  | pkgName p => exact SymbolKind.noConfusion hord

theorem IdentDoc_cons_noRen (print : Node → Except Unit String)
    (packageDoc : String → Except LookupError Doc) (obj : Object)
    (c0 : Node) (crest : List Node)
    (hord : obj.kind = SymbolKind.ordinary)
    (hfr : firstRenderable (c0 :: crest) = none) :
    IdentDoc print packageDoc obj (c0 :: crest) =
      some (.error .noDocumentation) := by
  rw [IdentDoc_ordinary_cons print packageDoc obj c0 crest hord, hfr]

theorem IdentDoc_cons_noFmt (print : Node → Except Unit String)
    (packageDoc : String → Except LookupError Doc) (obj : Object)
    (c0 : Node) (crest : List Node) (n : Node)
    (hord : obj.kind = SymbolKind.ordinary)
    (hfr : firstRenderable (c0 :: crest) = some n)
    (hfmt : formatNode print n obj.name obj.str = none) :
    IdentDoc print packageDoc obj (c0 :: crest) = none := by
  rw [IdentDoc_ordinary_cons print packageDoc obj c0 crest hord, hfr]
  simp [hfmt]

theorem IdentDoc_cons_fmt (print : Node → Except Unit String)
    (packageDoc : String → Except LookupError Doc) (obj : Object)
    (c0 : Node) (crest : List Node) (n : Node) (t : String)
    (hord : obj.kind = SymbolKind.ordinary)
    (hfr : firstRenderable (c0 :: crest) = some n)
    (hfmt : formatNode print n obj.name obj.str = some t) :
    IdentDoc print packageDoc obj (c0 :: crest) =
      Option.map Except.ok (docWalk (mkDoc obj t) (c0 :: crest)) := by
  rw [IdentDoc_ordinary_cons print packageDoc obj c0 crest hord, hfr]
  simp only [hfmt]
  cases docWalk (mkDoc obj t) (c0 :: crest) <;> rfl

/-! Claim theorems. -/

/-- C4: when the DocText walk reaches a FunctionDeclaration node it
always returns there, with DocText equal to the function's doc comment
text, which is the empty string when the function has no doc comment;
the result does not depend on the rest of the chain, so the walk never
continues outward past a FunctionDeclaration. -/
theorem funcDecl_walk_returns (d : Doc) (f : FuncDeclData) (rest : List Node) :
    docWalk d (Node.funcDecl f :: rest) =
      some { d with docText := commentText f.doc } ∧
    (f.doc = none →
      docWalk d (Node.funcDecl f :: rest) = some { d with docText := "" }) := by
  constructor
  · rfl
  · intro h; simp [docWalk, h, commentText]

theorem funcDecl_walk_returns_witness :
    docWalk sampleDoc
      (Node.funcDecl { doc := none, body := some (), nameSig := "func F()" } ::
        [Node.other]) = some { sampleDoc with docText := "" } :=
  (funcDecl_walk_returns sampleDoc
    { doc := none, body := some (), nameSig := "func F()" } [Node.other]).2 rfl

/-- C2 counterexample: at the concrete chain whose head is a
FieldDeclaration with neither a leading doc nor a trailing comment,
followed by a FunctionDeclaration carrying doc text, the walk does not
return at the field node (returning there would leave DocText empty):
it continues outward and returns the function's doc text. -/
theorem field_walk_counterexample :
    docWalk sampleDoc
      [Node.field { doc := none, comment := none },
       Node.funcDecl { doc := some "outer doc\n", body := some (),
                       nameSig := "func F()" }] =
      some { sampleDoc with docText := "outer doc\n" } ∧
    docWalk sampleDoc
      [Node.field { doc := none, comment := none },
       Node.funcDecl { doc := some "outer doc\n", body := some (),
                       nameSig := "func F()" }] ≠
      some sampleDoc := by
  constructor
  · rfl
  · decide

/-- C2 (amended): when the DocText walk reaches a FieldDeclaration, it
returns there with DocText set to the leading doc comment if present,
else to the trailing comment if present; when the field has neither,
the walk continues outward past the field instead of returning. -/
theorem field_walk_amended (d : Doc) (fl : FieldData) (rest : List Node) :
    (∀ t, fl.doc = some t →
      docWalk d (Node.field fl :: rest) = some { d with docText := t }) ∧
    (∀ c, fl.doc = none → fl.comment = some c →
      docWalk d (Node.field fl :: rest) = some { d with docText := c }) ∧
    (fl.doc = none → fl.comment = none →
      docWalk d (Node.field fl :: rest) = docWalk d rest) := by
  refine ⟨?_, ?_, ?_⟩
  · intro t ht; simp [docWalk, ht, commentText]
  · intro c hd hc; simp [docWalk, hd, hc, commentText]
  · intro hd hc; simp [docWalk, hd, hc]

theorem field_walk_amended_witness :
    docWalk sampleDoc [Node.field { doc := some "lead\n", comment := none }] =
      some { sampleDoc with docText := "lead\n" } ∧
    docWalk sampleDoc [Node.field { doc := none, comment := some "trail\n" }] =
      some { sampleDoc with docText := "trail\n" } ∧
    docWalk sampleDoc [Node.field { doc := none, comment := none }, Node.other] =
      docWalk sampleDoc [Node.other] :=
  ⟨(field_walk_amended sampleDoc { doc := some "lead\n", comment := none } []).1
      "lead\n" rfl,
   ((field_walk_amended sampleDoc { doc := none, comment := some "trail\n" } []).2).1
      "trail\n" rfl rfl,
   ((field_walk_amended sampleDoc { doc := none, comment := none } [Node.other]).2).2
      rfl rfl⟩

/-- C1: when the DocText walk reaches a GroupDeclaration of token kind
"const" (under the parser invariant that all its Specs are ValueSpecs),
the scanned literal is the first non-empty basic-literal initializer
across all Specs in declaration order, regardless of which Spec owns
it; if the group carries its own doc comment the walk returns that
comment text with "\nConstant Value: <literal>" appended exactly when
such a literal was found, and if the group has no doc comment the walk
does not return but continues outward. -/
theorem const_group_docText (d : Doc) (g : GenDeclData) (rest : List Node)
    (htok : g.tok = Tok.constTok)
    (hwf : ∀ s ∈ g.specs, isValueSpecB s = true) :
    (∀ t, g.doc = some t →
      docWalk d (Node.genDecl g :: rest) =
        some { d with docText := t ++
          (match firstConstLiteral g.specs with
           | some v => "\nConstant Value: " ++ v
           | none => "") }) ∧
    (g.doc = none → docWalk d (Node.genDecl g :: rest) = docWalk d rest) := by
  have hscan := constScan_eq g.specs hwf
  constructor
  · intro t ht
    cases hfl : firstConstLiteral g.specs with
    | some v =>
        have hv : v ≠ "" := firstConstLiteral_ne_empty hfl
        simp [docWalk, htok, hscan, hfl, ht, commentText, hv]
    | none =>
        simp [docWalk, htok, hscan, hfl, ht, commentText]
  · intro ht
    simp [docWalk, htok, hscan, ht]

theorem const_group_docText_witness :
    docWalk sampleDoc [Node.genDecl sampleConstGroup] =
      some { sampleDoc with docText := "group doc\n\nConstant Value: 1" } ∧
    docWalk sampleDoc (Node.genDecl sampleBareConstGroup :: [Node.other]) =
      docWalk sampleDoc [Node.other] := by
  constructor
  · have h := (const_group_docText sampleDoc sampleConstGroup [] rfl
      (by decide)).1 "group doc\n" rfl
    rw [h]
    rfl
  · exact (const_group_docText sampleDoc sampleBareConstGroup
      [Node.other] rfl (by decide)).2 rfl

/-- C3: Title is produced by rendering the first node of the ancestor
chain, innermost to outermost, whose kind is FunctionDeclaration,
GroupDeclaration or FieldDeclaration; if no node of those kinds exists
anywhere in the chain, the lookup fails with NoDocumentation instead of
returning a Doc. -/
theorem title_selection (print : Node → Except Unit String)
    (packageDoc : String → Except Gogetdoc.LookupError Doc)
    (obj : Object) (chain : List Node)
    (hord : obj.kind = SymbolKind.ordinary) (hne : chain ≠ []) :
    (chain.find? isRenderable = none →
      IdentDoc print packageDoc obj chain = some (.error .noDocumentation)) ∧
    ∀ n, chain.find? isRenderable = some n →
      IdentDoc print packageDoc obj chain ≠ some (.error .noDocumentation) ∧
      ∀ d, IdentDoc print packageDoc obj chain = some (.ok d) →
        some d.title = formatNode print n obj.name obj.str := by
  rcases List.exists_cons_of_ne_nil hne with ⟨c0, crest, rfl⟩
  rw [← firstRenderable_eq]
  constructor
  · intro hfr
    exact IdentDoc_cons_noRen print packageDoc obj c0 crest hord hfr
  · intro n hfr
    cases hfmt : formatNode print n obj.name obj.str with
    | none =>
        have hid := IdentDoc_cons_noFmt print packageDoc obj c0 crest n hord hfr hfmt
        exact ⟨by rw [hid]; simp, by intro d hd; rw [hid] at hd; cases hd⟩
    | some t =>
        have hid := IdentDoc_cons_fmt print packageDoc obj c0 crest n t hord hfr hfmt
        cases hwalk : docWalk (mkDoc obj t) (c0 :: crest) with
        | none =>
            rw [hwalk] at hid
            exact ⟨by rw [hid]; simp, by intro d hd; rw [hid] at hd; cases hd⟩
        | some d2 =>
            rw [hwalk] at hid
            refine ⟨by rw [hid]; simp, ?_⟩
            intro d hd
            rw [hid] at hd
            simp at hd
            subst hd
            rw [(docWalk_preserves hwalk).2.2]
            simp [mkDoc]

theorem title_selection_witness :
    IdentDoc printSample pkgDocSample sampleObj [Node.other] =
      some (.error .noDocumentation) ∧
    IdentDoc printSample pkgDocSample sampleObj [Node.genDecl sampleVarGroup] ≠
      some (.error .noDocumentation) := by
  constructor
  · exact (title_selection printSample pkgDocSample sampleObj [Node.other]
      rfl (by decide)).1 rfl
  · exact ((title_selection printSample pkgDocSample sampleObj
      [Node.genDecl sampleVarGroup] rfl (by decide)).2
      (Node.genDecl sampleVarGroup) rfl).1

/-- C8: for an ordinary (non-alias) symbol, the lookup fails with the
NotFound error exactly when the enclosing-ancestor chain is empty; when
the chain is nonempty the NotFound error can no longer arise, so it is
the only failure produced before Title selection begins. -/
theorem empty_chain_notFound (print : Node → Except Unit String)
    (packageDoc : String → Except Gogetdoc.LookupError Doc)
    (obj : Object) (chain : List Node)
    (hord : obj.kind = SymbolKind.ordinary) :
    (chain = [] →
      IdentDoc print packageDoc obj chain = some (.error .notFound)) ∧
    (chain ≠ [] →
      IdentDoc print packageDoc obj chain ≠ some (.error .notFound)) := by
  constructor
  · intro h
    subst h
    exact IdentDoc_ordinary_nil print packageDoc obj hord
  · intro hne
    rcases List.exists_cons_of_ne_nil hne with ⟨c0, crest, rfl⟩
    cases hfr : firstRenderable (c0 :: crest) with
    | none =>
        rw [IdentDoc_cons_noRen print packageDoc obj c0 crest hord hfr]
        simp
    | some n =>
        cases hfmt : formatNode print n obj.name obj.str with
        | none =>
            rw [IdentDoc_cons_noFmt print packageDoc obj c0 crest n hord hfr hfmt]
            simp
        | some t =>
            rw [IdentDoc_cons_fmt print packageDoc obj c0 crest n t hord hfr hfmt]
            cases docWalk (mkDoc obj t) (c0 :: crest) <;> simp

theorem empty_chain_notFound_witness :
    IdentDoc printSample pkgDocSample sampleObj [] = some (.error .notFound) ∧
    IdentDoc printSample pkgDocSample sampleObj [Node.other] ≠
      some (.error .notFound) :=
  ⟨(empty_chain_notFound printSample pkgDocSample sampleObj [] rfl).1 rfl,
   (empty_chain_notFound printSample pkgDocSample sampleObj [Node.other] rfl).2
     (by decide)⟩

/-- C9: if a Title was found (the chain has a renderable node and its
rendering yields a string) but the DocText walk exhausts the whole
chain without any per-kind rule firing, the lookup succeeds and returns
the Doc with an empty DocText; exhaustion after a Title is never an
error. -/
theorem walk_exhaustion_empty_docText (print : Node → Except Unit String)
    (packageDoc : String → Except Gogetdoc.LookupError Doc)
    (obj : Object) (chain : List Node) (t : String)
    (hord : obj.kind = SymbolKind.ordinary) (hne : chain ≠ [])
    (hwf : ∀ g, Node.genDecl g ∈ chain → g.tok = .constTok →
      ∀ s ∈ g.specs, isValueSpecB s = true)
    (hnofire : ∀ n ∈ chain, ruleFires n = false)
    (htitle : ∃ n, firstRenderable chain = some n ∧
      formatNode print n obj.name obj.str = some t) :
    IdentDoc print packageDoc obj chain = some (.ok (mkDoc obj t)) ∧
    (mkDoc obj t).docText = "" := by
  rcases htitle with ⟨n, hfr, hfmt⟩
  rcases List.exists_cons_of_ne_nil hne with ⟨c0, crest, rfl⟩
  constructor
  · rw [IdentDoc_cons_fmt print packageDoc obj c0 crest n t hord hfr hfmt,
      docWalk_nofire hwf hnofire]
    rfl
  · rfl

theorem walk_exhaustion_empty_docText_witness :
    IdentDoc printSample pkgDocSample sampleObj [Node.genDecl sampleVarGroup] =
      some (.ok (mkDoc sampleObj "PRINTED")) ∧
    (mkDoc sampleObj "PRINTED").docText = "" :=
  walk_exhaustion_empty_docText printSample pkgDocSample sampleObj
    [Node.genDecl sampleVarGroup] "PRINTED" rfl (by decide)
    (by intro g hg htok; simp [sampleVarGroup] at hg; rw [hg] at htok; cases htok)
    (by decide) ⟨Node.genDecl sampleVarGroup, rfl, rfl⟩

/-- C7: for a package-alias symbol, the lookup redirects to the
package-level documentation lookup keyed by the aliased package's
canonical import path — the result is the same for every ancestor
chain, so no chain, Title or extraction is computed — and the returned
record carries that path with no declaration-level Title. -/
theorem pkgName_redirect (print : Node → Except Unit String)
    (aliasNameOf aliasDocOf : String → String)
    (obj : Object) (chain : List Node) (path : String)
    (h : obj.kind = SymbolKind.pkgName path) :
    IdentDoc print (PackageDoc aliasNameOf aliasDocOf) obj chain =
      some (.ok { importPath := path, name := aliasNameOf path, title := "",
                  docText := aliasDocOf path }) ∧
    ∀ chain₂, IdentDoc print (PackageDoc aliasNameOf aliasDocOf) obj chain =
      IdentDoc print (PackageDoc aliasNameOf aliasDocOf) obj chain₂ := by
  have key : ∀ l : List Node,
      IdentDoc print (PackageDoc aliasNameOf aliasDocOf) obj l =
        some (.ok { importPath := path, name := aliasNameOf path, title := "",
                    docText := aliasDocOf path }) := by
    intro l
    obtain ⟨nm, pk, st, kd⟩ := obj
    cases kd with
    | ordinary => exact SymbolKind.noConfusion h
    | pkgName p =>
        have hp : p = path := by injection h
        subst hp
        rfl
  exact ⟨key chain, fun chain₂ => by rw [key chain, key chain₂]⟩

theorem pkgName_redirect_witness :
    IdentDoc printSample
      (PackageDoc (fun p => p) (fun _ => "package docs"))
      { name := "fmt", pkg := some "main", str := "package fmt",
        kind := .pkgName "fmt" } [Node.other] =
      some (.ok { importPath := "fmt", name := "fmt", title := "",
                  docText := "package docs" }) :=
  (pkgName_redirect printSample (fun p => p) (fun _ => "package docs")
    { name := "fmt", pkg := some "main", str := "package fmt",
      kind := .pkgName "fmt" } [Node.other] "fmt" rfl).1

/-- C5: rendering a GroupDeclaration for a target name declared by some
of its Specs hands the formatter a copy containing only the first Spec
whose name(s) include the target name — no sibling Specs — with the
group's surrounding parentheses dropped (both positions zeroed) and
both the group's doc comment and the retained Spec's own doc comment
cleared before formatting. -/
theorem genDecl_render_single_spec (g : GenDeclData) (symbol : String)
    (hhomog : HomogeneousSpecs g.specs)
    (hmem : ∃ s ∈ g.specs, specHasName s symbol = true) :
    ∃ s, g.specs.find? (fun t => specHasName t symbol) = some s ∧
      formatGenDeclCopy g symbol =
        some { tok := g.tok, doc := none, lparen := 0, rparen := 0,
               specs := [clearSpecDoc s] } ∧
      ∀ (print : Node → Except Unit String) (objString : String),
        formatNode print (Node.genDecl g) symbol objString =
          some (match print (Node.genDecl
                  { tok := g.tok, doc := none, lparen := 0, rparen := 0,
                    specs := [clearSpecDoc s] }) with
                | .ok out => out
                | .error _ => objString) := by
  rcases formatGenDeclCopy_found hhomog hmem with ⟨s, hfind, hcp⟩
  exact ⟨s, hfind, hcp, fun print objString => by simp [formatNode, hcp]⟩

theorem genDecl_render_single_spec_witness :
    ∃ s, sampleConstGroup.specs.find? (fun t => specHasName t "B") = some s ∧
      formatGenDeclCopy sampleConstGroup "B" =
        some { tok := sampleConstGroup.tok, doc := none, lparen := 0, rparen := 0,
               specs := [clearSpecDoc s] } ∧
      ∀ (print : Node → Except Unit String) (objString : String),
        formatNode print (Node.genDecl sampleConstGroup) "B" objString =
          some (match print (Node.genDecl
                  { tok := sampleConstGroup.tok, doc := none, lparen := 0,
                    rparen := 0, specs := [clearSpecDoc s] }) with
                | .ok out => out
                | .error _ => objString) :=
  genDecl_render_single_spec sampleConstGroup "B" (Or.inr (by decide)) (by decide)

/-- C6 counterexample: rendering is not total over all nodes — at this
concrete GroupDeclaration whose single Spec declares `T`, rendering for
the absent target name `X` dereferences the nil result of the Spec
lookup (modelled as `none`), so no string is produced. -/
theorem formatNode_crash_counterexample :
    formatNode printSample (Node.genDecl sampleTypeGroup) "X" "type p.T" =
      none := rfl

/-- C6 (amended): rendering yields a string and never propagates a
formatting failure — an unsupported node kind, a FieldDeclaration, and
any formatting failure on the supported paths all fall back to the
Symbol's default textual representation — for every node except a
GroupDeclaration whose (homogeneous, nonempty) Specs do not declare the
target name, where the renderer instead crashes on a nil dereference. -/
theorem formatNode_total_amended (print : Node → Except Unit String)
    (n : Node) (symbol objString : String)
    (hsafe : ∀ g, n = Node.genDecl g → g.specs = [] ∨
      (HomogeneousSpecs g.specs ∧ ∃ s ∈ g.specs, specHasName s symbol = true)) :
    (∃ out, formatNode print n symbol objString = some out) ∧
    (isRenderable n = false → formatNode print n symbol objString = some objString) ∧
    (∀ fl, n = Node.field fl → formatNode print n symbol objString = some objString) ∧
    (∀ f, n = Node.funcDecl f →
      print (Node.funcDecl (formatFuncDeclCopy f)) = .error () →
      formatNode print n symbol objString = some objString) ∧
    (∀ g cp, n = Node.genDecl g → formatGenDeclCopy g symbol = some cp →
      print (Node.genDecl cp) = .error () →
      formatNode print n symbol objString = some objString) := by
  refine ⟨?_, ?_, ?_, ?_, ?_⟩
  · cases n with
    | funcDecl f => exact ⟨_, rfl⟩
    | field fl => exact ⟨_, rfl⟩
    | other => exact ⟨_, rfl⟩
    | genDecl g =>
        rcases hsafe g rfl with hnil | ⟨hhomog, hmem⟩
        · have hcp : formatGenDeclCopy g symbol = some { g with doc := none } := by
            simp [formatGenDeclCopy, hnil]
          exact ⟨_, formatNode_genDecl_some hcp print objString⟩
        · rcases formatGenDeclCopy_found hhomog hmem with ⟨s, -, hcp⟩
          exact ⟨_, formatNode_genDecl_some hcp print objString⟩
  · intro hr
    cases n with
    | funcDecl f => simp [isRenderable] at hr
    | genDecl g => simp [isRenderable] at hr
    | field fl => rfl
    | other => rfl
  · intro fl h
    subst h
    rfl
  · intro f h herr
    subst h
    simp [formatNode, herr]
  · intro g cp h hcp herr
    subst h
    simp [formatNode, hcp, herr]

theorem formatNode_total_amended_witness :
    (∃ out, formatNode printSample Node.other "x" "var p.x int" = some out) ∧
    (isRenderable Node.other = false →
      formatNode printSample Node.other "x" "var p.x int" = some "var p.x int") ∧
    (∀ fl, Node.other = Node.field fl →
      formatNode printSample Node.other "x" "var p.x int" = some "var p.x int") ∧
    (∀ f, Node.other = Node.funcDecl f →
      printSample (Node.funcDecl (formatFuncDeclCopy f)) = .error () →
      formatNode printSample Node.other "x" "var p.x int" = some "var p.x int") ∧
    (∀ g cp, Node.other = Node.genDecl g → formatGenDeclCopy g "x" = some cp →
      printSample (Node.genDecl cp) = .error () →
      formatNode printSample Node.other "x" "var p.x int" = some "var p.x int") :=
  formatNode_total_amended printSample Node.other "x" "var p.x int"
    (fun _ h => Node.noConfusion h)

/-- C10: under the parser invariant that the group's Specs are
homogeneous and the group is nonempty (so its first Spec is a type or
value Spec), rendering the GroupDeclaration avoids the nil-pointer
crash exactly when the target symbol's name appears among the names of
the group's Specs: with the name present the nil-returning branch of
the Spec lookup is unreachable and a string is produced, and with it
absent the renderer dereferences the nil lookup result (no string). -/
theorem genDecl_render_safety (print : Node → Except Unit String)
    (g : GenDeclData) (symbol objString : String)
    (hne : g.specs ≠ []) (hhomog : HomogeneousSpecs g.specs) :
    (∃ s ∈ g.specs, specHasName s symbol = true) ↔
      (formatNode print (Node.genDecl g) symbol objString).isSome = true := by
  constructor
  · intro hmem
    rcases formatGenDeclCopy_found hhomog hmem with ⟨s, -, hcp⟩
    simp [formatNode, hcp]
  · intro hsome
    by_contra hmem
    push_neg at hmem
    have hmem2 : ∀ s ∈ g.specs, specHasName s symbol = false := by
      intro s hs
      have := hmem s hs
      simpa using this
    have hnone := formatGenDeclCopy_none hhomog hne hmem2
    simp [formatNode, hnone] at hsome

theorem genDecl_render_safety_witness :
    ((∃ s ∈ sampleConstGroup.specs, specHasName s "B" = true) ↔
      (formatNode printSample (Node.genDecl sampleConstGroup) "B"
        "const p.B untyped int").isSome = true) ∧
    ((∃ s ∈ sampleTypeGroup.specs, specHasName s "X" = true) ↔
      (formatNode printSample (Node.genDecl sampleTypeGroup) "X"
        "type p.T").isSome = true) :=
  ⟨genDecl_render_safety printSample sampleConstGroup "B" "const p.B untyped int"
      (by decide) (Or.inr (by decide)),
   genDecl_render_safety printSample sampleTypeGroup "X" "type p.T"
      (by decide) (Or.inl (by decide))⟩

end Gogetdoc
